import Mathlib

/-!
# A shallow embedding of the NohLang interpreter (`noh_interpreter.py`)

This file models the interpretation engine of the NohLang interpreter:
the safe expression evaluator (`safe_eval` / `_eval_node`), the scoped
environment stack, the block executor (`execute_lines`, `process_if`,
`process_while`, `process_for`, `process_func_def`, `process_func_call`,
`process_return`), and the function-call protocol (`Function.call`).

Modelling conventions:
* Python values are a tagged variant `Value`.  Python `None` is `Value.null`.
  Builtin callables installed at interpreter construction (`math.sqrt`, …)
  are opaque tags (`Value.builtinV`): the expression whitelist has no `Call`
  node, so NohLang programs can never invoke them; they are only data.
* A Python dict is an association list that keeps insertion order; an update
  of an existing key replaces its value in place, a new key is appended.
  The scope stack `List Scope` has the builtins frame first (index 0) and
  the current frame last, exactly as `self.scopes` in the source.
* `copy.deepcopy` of the scope stack (closure capture) is the identity in
  this purely functional model: captured data is immutable, so the snapshot
  semantics of the source is preserved.  One aliasing effect is outside the
  model: in Python the same `Function` object reuses its closure dicts on
  every call, so an assignment a body makes to a closure variable persists
  into the *next* call of the same function; the pure model discards such
  mutations when the stack is restored.  No verified claim calls a function
  twice.
* Source lines are modelled after comment stripping and pattern dispatch:
  `Stmt` has one constructor per statement pattern of the dispatch table
  that the verified claims exercise, plus `unknown` for a line matching no
  pattern.  Expression positions hold the result of `ast.parse` on the
  original text: `Option PyAst`, with `none` for a parse failure.
* Python exceptions `BreakException` / `ContinueException` /
  `ReturnException` / `SystemExit` (raised by the exit builtin) are the
  `Signal` variants of the result types; possible nontermination of the
  `while` loop is handled with a fuel parameter.
* Logging presentation (line-number prefixes, colour, the debug/fast
  flags, the log file) is not modelled: the interpreter runs in its default
  configuration (`debug=False`, `fast=False`) and `eungdi` appends the
  message together with its error flag to an output trace.
* Floating-point arithmetic is outside the model: `Div` and `Pow` (which
  produce floats on integer operands) are omitted from the embedded
  operator whitelist, as are the `Tuple`/`Dict`/`Subscript` literal nodes;
  no verified claim depends on any of them.
-/

namespace Noh

/-- Binary operators: the whitelisted `allowed_operators` entries that the
model covers (`ast.Add`, `ast.Sub`, `ast.Mult`, `ast.Mod`; the float-valued
`Div` and `Pow` are outside the integer model), plus `otherB` for the
`ast` binary operators *not* in `allowed_operators` (`FloorDiv`, `LShift`,
`BitOr`, …), on which `allowed_operators.get` returns `None`. -/
inductive BinK where
  | add | sub | mult | modK
  | otherB (name : String)
deriving DecidableEq, Repr

/-- Unary operators of `allowed_unary_operators`
(`ast.UAdd`, `ast.USub`, `ast.Not`), plus the non-whitelisted
`ast.Invert`. -/
inductive UnK where
  | uadd | usub | notK | invert
deriving DecidableEq, Repr

/-- Comparison operators of `allowed_compare_ops`, plus the
non-whitelisted `ast.Is` / `ast.In` comparison node kinds. -/
inductive CmpK where
  | eq | ne | lt | le | gt | ge
  | isOp | inOp
deriving DecidableEq, Repr

mutual

/-- Runtime values of the interpreter.  `null` is Python `None`;
`builtinV` is an opaque tag for a builtin callable installed by
`Interpreter.__init__`; `funcV` is the `Function` class: parameter names,
captured block and the deep-copied closure scope stack. -/
inductive Value where
  | null
  | intV (n : Int)
  | boolV (b : Bool)
  | strV (s : String)
  | listV (xs : List Value)
  | builtinV (tag : String)
  | funcV (params : List String) (block : List Stmt)
      (closure : List (List (String × Value)))

/-- The expression AST accepted by `_eval_node` (mirroring the `ast`
node kinds it inspects), plus the non-whitelisted node kinds
`attribute` (`ast.Attribute`) and `callE` (`ast.Call`) that fall into
the final `else` branch raising `TypeError`. -/
inductive PyAst where
  | constant (v : Value)
  | binOp (k : BinK) (l r : PyAst)
  | unaryOp (k : UnK) (e : PyAst)
  | boolOp (isAnd : Bool) (vs : List PyAst)
  | compare (l : PyAst) (ops : List CmpK) (comps : List PyAst)
  | listE (es : List PyAst)
  | nameE (id : String)
  | attribute (obj : PyAst) (attr : String)
  | callE (f : PyAst) (args : List PyAst)

/-- One cleaned source line after dispatch against the pattern table.
Expression positions are `Option PyAst`: the parse result of the matched
group (`none` = `ast.parse` failed). -/
inductive Stmt where
  | printS (msg : String)
  | declareS (v : String)
  | assignS (v : String) (e : Option PyAst)
  | outputS (v : String)
  | deleteVarS (v : String)
  | resetS
  | exitS
  | ifS (c : Option PyAst)
  | elseS
  | endIf
  | whileS (c : Option PyAst)
  | endWhile
  | forS (v : String) (iter : Option PyAst)
  | endFor
  | funcDefS (name : String) (params : List String)
  | endFunc
  | funcCallS (name : String) (args : List (Option PyAst))
  | breakS
  | continueS
  | returnS (e : Option (Option PyAst))
  | blank
  | unknown (text : String)

end

/-- An environment frame: a Python dict from identifier to value,
kept in insertion order. -/
abbrev Scope := List (String × Value)

/-- Python truthiness (`bool(x)`) for the modelled value kinds. -/
def truthy : Value → Bool
  | .null => false
  | .intV n => n ≠ 0
  | .boolV b => b
  | .strV s => s ≠ ""
  | .listV xs => ¬ xs.isEmpty
  | .builtinV _ => true
  | .funcV _ _ _ => true

/-- Dict read: first (unique) binding of the key. -/
def scopeGet (s : Scope) (k : String) : Option Value :=
  match s with
  | [] => none
  | (k', v) :: rest => if k' = k then some v else scopeGet rest k

/-- Dict write `d[k] = v`: replace in place if present, else append. -/
def scopeSet (s : Scope) (k : String) (v : Value) : Scope :=
  match s with
  | [] => [(k, v)]
  | (k', v') :: rest =>
      if k' = k then (k, v) :: rest else (k', v') :: scopeSet rest k v

/-- Dict delete `del d[k]` (the caller checks presence first). -/
def scopeDel (s : Scope) (k : String) : Scope :=
  match s with
  | [] => []
  | (k', v') :: rest =>
      if k' = k then rest else (k', v') :: scopeDel rest k

/-- Python numeric coercion: `bool` is a subtype of `int`, so both kinds
participate in arithmetic and numeric comparison. -/
def toNum : Value → Option Int
  | .intV n => some n
  | .boolV b => some (if b then 1 else 0)
  | _ => none

/-- Python `s * n` string replication (empty for `n ≤ 0`). -/
def strRep (s : String) (n : Int) : String :=
  String.join (List.replicate n.toNat s)

/-- Python `xs * n` list replication (empty for `n ≤ 0`). -/
def listRep (xs : List Value) (n : Int) : List Value :=
  (List.replicate n.toNat xs).flatten

mutual

/-- Python `==` on the modelled values: numeric equality across
`int`/`bool`, structural equality elsewhere, `False` across distinct
kinds.  Python compares `Function` objects by identity, which a pure
model cannot represent; no verified claim compares function values. -/
def pyEqV : Value → Value → Bool
  | a, b =>
    match toNum a, toNum b with
    | some x, some y => x = y
    | _, _ =>
      match a, b with
      | .null, .null => true
      | .strV s, .strV t => s = t
      | .listV xs, .listV ys => pyEqL xs ys
      | .builtinV s, .builtinV t => s = t
      | _, _ => false

/-- Python `==` on lists: elementwise, equal lengths. -/
def pyEqL : List Value → List Value → Bool
  | [], [] => true
  | x :: xs, y :: ys => pyEqV x y && pyEqL xs ys
  | _, _ => false

end

/-- One whitelisted binary operator application
(the `operator_func(left, right)` call of `_eval_node`), with the
`TypeError` on incompatible operands surfacing as an error.  `otherB`
is the `allowed_operators.get(...) is None` branch. -/
def evalBinOp (k : BinK) (a b : Value) : Except String Value :=
  match k with
  | .otherB _ => .error "지원되지 않는 이항 연산자"
  | .add =>
      match toNum a, toNum b with
      | some x, some y => .ok (.intV (x + y))
      | _, _ =>
        match a, b with
        | .strV s, .strV t => .ok (.strV (s ++ t))
        | .listV xs, .listV ys => .ok (.listV (xs ++ ys))
        | _, _ => .error "TypeError: 지원되지 않는 피연산자"
  | .sub =>
      match toNum a, toNum b with
      | some x, some y => .ok (.intV (x - y))
      | _, _ => .error "TypeError: 지원되지 않는 피연산자"
  | .mult =>
      match toNum a, toNum b with
      | some x, some y => .ok (.intV (x * y))
      | _, _ =>
        match a, b with
        | .strV s, _ =>
            match toNum b with
            | some n => .ok (.strV (strRep s n))
            | none => .error "TypeError: 지원되지 않는 피연산자"
        | _, .strV t =>
            match toNum a with
            | some n => .ok (.strV (strRep t n))
            | none => .error "TypeError: 지원되지 않는 피연산자"
        | .listV xs, _ =>
            match toNum b with
            | some n => .ok (.listV (listRep xs n))
            | none => .error "TypeError: 지원되지 않는 피연산자"
        | _, .listV ys =>
            match toNum a with
            | some n => .ok (.listV (listRep ys n))
            | none => .error "TypeError: 지원되지 않는 피연산자"
        | _, _ => .error "TypeError: 지원되지 않는 피연산자"
  | .modK =>
      match toNum a, toNum b with
      | some x, some y =>
          if y = 0 then .error "ZeroDivisionError"
          else .ok (.intV (Int.fmod x y))
      | _, _ => .error "TypeError: 지원되지 않는 피연산자"

/-- One unary operator application; `invert` is the
`allowed_unary_operators.get(...) is None` branch. -/
def evalUnaryOp (k : UnK) (a : Value) : Except String Value :=
  match k with
  | .invert => .error "지원되지 않는 단항 연산자"
  | .notK => .ok (.boolV (¬ truthy a))
  | .uadd =>
      match toNum a with
      | some x => .ok (.intV x)
      | none => .error "TypeError: 지원되지 않는 피연산자"
  | .usub =>
      match toNum a with
      | some x => .ok (.intV (-x))
      | none => .error "TypeError: 지원되지 않는 피연산자"

/-- One comparison operator application.  Ordering is defined on
numbers and on strings (code-point lexicographic, as in Python);
ordering of other kinds (Python orders lists lexicographically, which
no claim needs) raises `TypeError`.  `isOp`/`inOp` are the
`allowed_compare_ops.get(...) is None` branch. -/
def evalCmpOp (k : CmpK) (a b : Value) : Except String Bool :=
  match k with
  | .isOp => .error "지원되지 않는 비교 연산자"
  | .inOp => .error "지원되지 않는 비교 연산자"
  | .eq => .ok (pyEqV a b)
  | .ne => .ok (¬ pyEqV a b)
  | .lt =>
      match toNum a, toNum b with
      | some x, some y => .ok (decide (x < y))
      | _, _ =>
        match a, b with
        | .strV s, .strV t => .ok (decide (s < t))
        | _, _ => .error "TypeError: 비교 불가"
  | .le =>
      match toNum a, toNum b with
      | some x, some y => .ok (decide (x ≤ y))
      | _, _ =>
        match a, b with
        | .strV s, .strV t => .ok (decide (s ≤ t))
        | _, _ => .error "TypeError: 비교 불가"
  | .gt =>
      match toNum a, toNum b with
      | some x, some y => .ok (decide (y < x))
      | _, _ =>
        match a, b with
        | .strV s, .strV t => .ok (decide (t < s))
        | _, _ => .error "TypeError: 비교 불가"
  | .ge =>
      match toNum a, toNum b with
      | some x, some y => .ok (decide (y ≤ x))
      | _, _ =>
        match a, b with
        | .strV s, .strV t => .ok (decide (t ≤ s))
        | _, _ => .error "TypeError: 비교 불가"

mutual

/-- `_eval_node`: evaluate one whitelisted AST node against the combined
variable dict.  Non-whitelisted node kinds (`ast.Attribute`, `ast.Call`)
fall into the final `else` branch raising `TypeError`. -/
def evalNode : PyAst → Scope → Except String Value
  | .constant v, _ => .ok v
  | .binOp k l r, env => do
      let a ← evalNode l env
      let b ← evalNode r env
      evalBinOp k a b
  | .unaryOp k e, env => do
      let a ← evalNode e env
      evalUnaryOp k a
  | .boolOp true vs, env => do
      let b ← evalAll vs env
      pure (.boolV b)
  | .boolOp false vs, env => do
      let b ← evalAny vs env
      pure (.boolV b)
  | .compare l ops comps, env => do
      let a ← evalNode l env
      let b ← evalChain a ops comps env
      pure (.boolV b)
  | .listE es, env => do
      let xs ← evalList es env
      pure (.listV xs)
  | .nameE id, env =>
      match scopeGet env id with
      | some .null => .error ("변수 \"" ++ id ++ "\"에 값이 할당되지 않음")
      | some v => .ok v
      | none => .error ("변수 \"" ++ id ++ "\"가 선언되지 않음")
  | .attribute _ _, _ => .error "지원되지 않는 표현식 구성요소"
  | .callE _ _, _ => .error "지원되지 않는 표현식 구성요소"
termination_by structural e env => e

/-- `all(_eval_node(v, variables) for v in node.values)`: short-circuits
on the first falsy operand, leaving the rest unevaluated; yields a bool. -/
def evalAll : List PyAst → Scope → Except String Bool
  | [], _ => .ok true
  | v :: vs, env => do
      let x ← evalNode v env
      if truthy x then evalAll vs env else pure false

/-- `any(_eval_node(v, variables) for v in node.values)`: short-circuits
on the first truthy operand, leaving the rest unevaluated; yields a bool. -/
def evalAny : List PyAst → Scope → Except String Bool
  | [], _ => .ok false
  | v :: vs, env => do
      let x ← evalNode v env
      if truthy x then pure true else evalAny vs env

/-- The comparison-chain loop of `_eval_node` over
`zip(node.ops, node.comparators)` (`zip` stops at the shorter list):
returns `False` at the first failing link (without evaluating the
remaining comparators), carrying the last comparator value leftward. -/
def evalChain : Value → List CmpK → List PyAst → Scope → Except String Bool
  | _, [], _, _ => .ok true
  | _, _ :: _, [], _ => .ok true
  | left, k :: ks, comp :: comps, env => do
      let c ← evalNode comp env
      let b ← evalCmpOp k left c
      if b then evalChain c ks comps env else pure false
termination_by structural left ks comps env => comps

/-- Elementwise evaluation of a list literal. -/
def evalList : List PyAst → Scope → Except String (List Value)
  | [], _ => .ok []
  | e :: es, env => do
      let x ← evalNode e env
      let xs ← evalList es env
      pure (x :: xs)

end

/-- `safe_eval`: parse (already reflected in the `Option`) and evaluate,
wrapping any failure — a parse error or any exception from `_eval_node` —
into the single unsafe-expression `ValueError`.  The AST cache is a pure
lookup table and is not modelled. -/
def safeEval (parsed : Option PyAst) (env : Scope) : Except String Value :=
  match parsed with
  | none => .error "안전하지 않은 표현식: 구문 오류"
  | some a =>
      match evalNode a env with
      | .ok v => .ok v
      | .error m => .error ("안전하지 않은 표현식: " ++ m)

/-- Interpreter state: the scope stack (`self.scopes`, builtins frame
first, current frame last) and the trace of `eungdi` diagnostics as
(message, is-error) pairs.  Line-number prefixes and colour are
presentation and are not modelled. -/
structure St where
  scopes : List Scope
  output : List (String × Bool)

/-- `Interpreter.eungdi` in the default configuration
(`debug=False`, `fast=False`): append one diagnostic. -/
def eungdi (st : St) (msg : String) (err : Bool) : St :=
  { st with output := st.output ++ [(msg, err)] }

/-- `Interpreter.push_scope`: append a fresh empty frame. -/
def pushScope (st : St) : St :=
  { st with scopes := st.scopes ++ [[]] }

/-- `Interpreter.pop_scope`: drop the last frame, refusing to drop the
only remaining one. -/
def popScope (st : St) : St :=
  if 1 < st.scopes.length then { st with scopes := st.scopes.dropLast }
  else eungdi st "오류: 전역 스코프는 제거할 수 없습니다." true

/-- Apply an update to the current (last) frame, as mutation of
`self.current_scope()` does. -/
def updateCur (scopes : List Scope) (f : Scope → Scope) : List Scope :=
  match scopes with
  | [] => []
  | [s] => [f s]
  | s :: rest => s :: updateCur rest f

/-- `self.current_scope()` (`self.scopes[-1]`). -/
def currentScope (st : St) : Scope :=
  st.scopes.getLastD []

/-- `Interpreter.declare_variable`: error if the name is already present
in the current frame, else bind it there to `None`. -/
def declareVariable (name : String) (st : St) : St :=
  if (scopeGet (currentScope st) name).isSome then
    eungdi st ("오류: 변수 \"" ++ name ++ "\" 가 이미 선언됨") true
  else
    { st with scopes := updateCur st.scopes (fun s => scopeSet s name .null) }

/-- The innermost-outward search of `Interpreter.assign_variable`
(`for scope in reversed(self.scopes)`): update the innermost frame
containing the name, `none` if no frame does. -/
def assignInScopes (scopes : List Scope) (k : String) (v : Value) :
    Option (List Scope) :=
  match scopes with
  | [] => none
  | s :: rest =>
      match assignInScopes rest k v with
      | some rest' => some (s :: rest')
      | none =>
          if (scopeGet s k).isSome then some (scopeSet s k v :: rest) else none

/-- `Interpreter.assign_variable`: write to the nearest enclosing frame
containing the name, error if none does. -/
def assignVariable (k : String) (v : Value) (st : St) : St :=
  match assignInScopes st.scopes k v with
  | some sc => { st with scopes := sc }
  | none => eungdi st ("오류: 변수 \"" ++ k ++ "\" 가 선언되지 않음") true

/-- Innermost-first variable lookup (`for scope in reversed(self.scopes)`). -/
def lookupVar (scopes : List Scope) (k : String) : Option Value :=
  match scopes with
  | [] => none
  | s :: rest =>
      match lookupVar rest k with
      | some v => some v
      | none => scopeGet s k

/-- `Interpreter.get_variable`: innermost-first lookup, reporting an
error and yielding `None` when the name is unbound. -/
def getVariable (k : String) (st : St) : Value × St :=
  match lookupVar st.scopes k with
  | some v => (v, st)
  | none => (.null, eungdi st ("오류: 변수 \"" ++ k ++ "\" 가 선언되지 않음") true)

/-- `dict(self.get_combined_scope())` = `dict(ChainMap(*scopes[::-1]))`:
a flat dict in which the innermost binding of each name wins (the first
occurrence in the flattened reversed stack). -/
def combinedScope (scopes : List Scope) : Scope :=
  scopes.reverse.flatten

/-- `Interpreter.evaluate_expression`: `safe_eval` over the combined
view; an evaluation failure is reported and yields `None`.  It never
touches the scope stack. -/
def evaluateExpression (st : St) (e : Option PyAst) : Value × St :=
  match safeEval e (combinedScope st.scopes) with
  | .ok v => (v, st)
  | .error m => (.null, eungdi st ("오류: 수식 평가 중 문제 발생 - " ++ m) true)

mutual

/-- Python `repr()` for list elements; string quoting is simplified to
always use a single quote (Python switches quote characters only when
the string itself contains one, which no claim exercises). -/
def pyRepr : Value → String
  | .null => "None"
  | .intV n => toString n
  | .boolV b => if b then "True" else "False"
  | .strV s => "\x27" ++ s ++ "\x27"
  | .listV xs => "[" ++ pyReprSep xs ++ "]"
  | .builtinV tag => "<built-in function " ++ tag ++ ">"
  | .funcV ps _ _ => "Function(" ++ String.intercalate ", " ps ++ ")"
termination_by structural v => v

/-- Comma-separated reprs of list elements. -/
def pyReprSep : List Value → String
  | [] => ""
  | [x] => pyRepr x
  | x :: xs => pyRepr x ++ ", " ++ pyReprSep xs
termination_by structural xs => xs

end

/-- Python `str()` of the modelled values, as printed by the output
handler (`self.eungdi(str(...))`); list elements are rendered with
`repr()`, as Python does. -/
def pyStr : Value → String
  | .null => "None"
  | .intV n => toString n
  | .boolV b => if b then "True" else "False"
  | .strV s => s
  | .listV xs => "[" ++ pyReprSep xs ++ "]"
  | .builtinV tag => "<built-in function " ++ tag ++ ">"
  | .funcV ps _ _ => "Function(" ++ String.intercalate ", " ps ++ ")"

/-- The non-local exits that can escape a statement: the
`BreakException` / `ContinueException` / `ReturnException` signals and
`SystemExit` raised by the exit builtin. -/
inductive Signal where
  | brk
  | cont
  | ret (v : Value)
  | exit

/-- Result of `execute_lines`: normal completion with the final index,
an escaping signal, or fuel exhaustion (nontermination). -/
inductive ExecRes where
  | done (i : Nat) (st : St)
  | sig (s : Signal) (st : St)
  | fuel

/-- Result of a statement or loop that yields no index. -/
inductive StepRes where
  | ok (st : St)
  | sig (s : Signal) (st : St)
  | fuel

/-- Result of `Function.call`: the returned value, an escaping signal,
or fuel exhaustion. -/
inductive CallRes where
  | val (v : Value) (st : St)
  | sig (s : Signal) (st : St)
  | fuel

/-- `Interpreter.handle_assign`: evaluate the right-hand side; assign
only when the result is not `None`. -/
def handleAssign (v : String) (e : Option PyAst) (st : St) : St :=
  match evaluateExpression st e with
  | (.null, st1) => st1
  | (val, st1) => assignVariable v val st1

/-- `Interpreter.handle_delete_var`: delete from the current frame only. -/
def handleDeleteVar (v : String) (st : St) : St :=
  if (scopeGet (currentScope st) v).isSome then
    eungdi { st with scopes := updateCur st.scopes (fun s => scopeDel s v) }
      ("변수 \"" ++ v ++ "\" 삭제됨") false
  else
    eungdi st ("오류: 변수 \"" ++ v ++ "\" 가 현재 스코프에 없음") true

/-- `Interpreter.handle_reset`: replace the stack by the builtins frame
alone (`self.scopes = [self.scopes[0].copy()]`; the source indexes
`scopes[0]`, which always exists since the stack is never empty). -/
def handleReset (st : St) : St :=
  eungdi { st with scopes := [st.scopes.headD []] } "스코프 초기화 완료" false

/-- Canonical source text of the block-delimiter lines, used only in
the unknown-command diagnostic when such a line reaches
`interpret_line` stray (none of them is in `single_commands`). -/
def stmtText : Stmt → String
  | .elseS => "아니면 북딱"
  | .endIf => "끝 만약 북딱"
  | .endWhile => "끝 반복 북딱"
  | .endFor => "끝 반복문 북딱"
  | .endFunc => "끝 흔들어라 북딱"
  | .unknown t => t
  | _ => ""

/-- `Interpreter.interpret_line` for the simple (non-signalling)
statements the claims exercise; a line matching no `single_commands`
pattern — including a stray block delimiter — yields the
unknown-command error. -/
def interpretLine (line : Stmt) (st : St) : St :=
  match line with
  | .printS msg => eungdi st msg false
  | .declareS v => declareVariable v st
  | .assignS v e => handleAssign v e st
  | .outputS v =>
      let (x, st1) := getVariable v st
      eungdi st1 (pyStr x) false
  | .deleteVarS v => handleDeleteVar v st
  | .resetS => handleReset st
  | line => eungdi st ("오류: 알 수 없는 명령어 - " ++ stmtText line) true

/-- The scan loop of `process_if`: walk the lines after the opener,
tracking nested if-openers with a depth counter, splitting at a sibling
`else`, stopping at the sibling end-if.  Returns the then-block, the
else-block, and the offset of the end-if (or the suffix length when it
is missing, in which case the rest of the program is consumed). -/
def scanIf (rest : List Stmt) (nested : Nat) (inElse : Bool) :
    List Stmt × List Stmt × Nat :=
  match rest with
  | [] => ([], [], 0)
  | curr :: tl =>
      match curr with
      | .ifS c =>
          let r := scanIf tl (nested + 1) inElse
          if inElse then (r.1, .ifS c :: r.2.1, r.2.2 + 1)
          else (.ifS c :: r.1, r.2.1, r.2.2 + 1)
      | .endIf =>
          if nested > 0 then
            let r := scanIf tl (nested - 1) inElse
            if inElse then (r.1, .endIf :: r.2.1, r.2.2 + 1)
            else (.endIf :: r.1, r.2.1, r.2.2 + 1)
          else ([], [], 0)
      | .elseS =>
          if nested = 0 then
            let r := scanIf tl nested true
            (r.1, r.2.1, r.2.2 + 1)
          else
            let r := scanIf tl nested inElse
            if inElse then (r.1, .elseS :: r.2.1, r.2.2 + 1)
            else (.elseS :: r.1, r.2.1, r.2.2 + 1)
      | curr =>
          let r := scanIf tl nested inElse
          if inElse then (r.1, curr :: r.2.1, r.2.2 + 1)
          else (curr :: r.1, r.2.1, r.2.2 + 1)

/-- The scan loop of `process_while`: collect the body up to the
matching end-while, tracking nested while-openers. -/
def scanWhile (rest : List Stmt) (nested : Nat) : List Stmt × Nat :=
  match rest with
  | [] => ([], 0)
  | curr :: tl =>
      match curr with
      | .whileS c =>
          let r := scanWhile tl (nested + 1)
          (.whileS c :: r.1, r.2 + 1)
      | .endWhile =>
          if nested > 0 then
            let r := scanWhile tl (nested - 1)
            (.endWhile :: r.1, r.2 + 1)
          else ([], 0)
      | curr =>
          let r := scanWhile tl nested
          (curr :: r.1, r.2 + 1)

/-- The scan loop of `process_for`: collect the body up to the *first*
end-for line — unlike the if/while/function scans, `process_for` keeps
no nesting counter. -/
def scanFor (rest : List Stmt) : List Stmt × Nat :=
  match rest with
  | [] => ([], 0)
  | curr :: tl =>
      match curr with
      | .endFor => ([], 0)
      | curr =>
          let r := scanFor tl
          (curr :: r.1, r.2 + 1)

/-- The scan loop of `process_func_def`: collect the body up to the
matching end-function, tracking nested definitions. -/
def scanFunc (rest : List Stmt) (nested : Nat) : List Stmt × Nat :=
  match rest with
  | [] => ([], 0)
  | curr :: tl =>
      match curr with
      | .funcDefS name ps =>
          let r := scanFunc tl (nested + 1)
          (.funcDefS name ps :: r.1, r.2 + 1)
      | .endFunc =>
          if nested > 0 then
            let r := scanFunc tl (nested - 1)
            (.endFunc :: r.1, r.2 + 1)
          else ([], 0)
      | curr =>
          let r := scanFunc tl nested
          (curr :: r.1, r.2 + 1)

/-- `Interpreter.process_func_def`: scan the body, capture the closure
as a deep copy of the current stack (`copy.deepcopy(self.scopes)`; the
identity in this immutable model — taken *before* the name is declared,
so the function is not in its own closure), then declare and bind the
name.  Returns the next index and the new state. -/
def processFuncDef (lines : List Stmt) (index : Nat) (st : St) : Nat × St :=
  match lines[index]? with
  | some (.funcDefS name params) =>
      let (block, k) := scanFunc (lines.drop (index + 1)) 0
      let fval := Value.funcV params block st.scopes
      let st1 := declareVariable name st
      let st2 := assignVariable name fval st1
      (index + 1 + k + 1, st2)
  | _ => (index + 1, eungdi st "오류: 함수 정의 구문 파싱 실패" true)

/-- `Interpreter.process_return`: the optional expression is evaluated
(yielding `None` when absent), and the result is raised as a Return
signal by the caller. -/
def processReturn (e : Option (Option PyAst)) (st : St) : Value × St :=
  match e with
  | none => (.null, st)
  | some ex => evaluateExpression st ex

/-- Left-to-right evaluation of the argument expressions of a function
call statement. -/
def evalArgs (args : List (Option PyAst)) (st : St) : List Value × St :=
  match args with
  | [] => ([], st)
  | e :: es =>
      let (v, st1) := evaluateExpression st e
      let (vs, st2) := evalArgs es st1
      (v :: vs, st2)

/-- `zip(self.params, args)` bound into the fresh call frame. -/
def bindParams (ps : List String) (args : List Value) : Scope :=
  (List.zip ps args).foldl (fun acc pa => scopeSet acc pa.1 pa.2) []

/-- `hasattr(value, "__iter__")` plus Python iteration for the modelled
kinds: lists yield their elements, strings their one-character
substrings; everything else is not iterable (dicts are outside the
model). -/
def toIter : Value → Option (List Value)
  | .listV xs => some xs
  | .strV s => some (s.data.map fun ch => Value.strV (String.mk [ch]))
  | _ => none

mutual

/-- `Interpreter.execute_lines`: the block executor.  Compound openers
transfer to their processors; break/continue/return raise signals; the
exit builtin raises `SystemExit` after its diagnostic; any other line
goes to `interpret_line` and execution proceeds with the next index. -/
def executeLines : Nat → List Stmt → Nat → St → ExecRes
  | 0, _, _, _ => .fuel
  | n + 1, lines, i, st =>
      match lines[i]? with
      | none => .done i st
      | some line =>
        match line with
        | .blank => executeLines n lines (i + 1) st
        | .ifS _ =>
            match processIf n lines i st with
            | .done j st1 => executeLines n lines j st1
            | r => r
        | .whileS _ =>
            match processWhile n lines i st with
            | .done j st1 => executeLines n lines j st1
            | r => r
        | .forS _ _ =>
            match processFor n lines i st with
            | .done j st1 => executeLines n lines j st1
            | r => r
        | .funcDefS _ _ =>
            let (j, st1) := processFuncDef lines i st
            executeLines n lines j st1
        | .funcCallS name args =>
            match processFuncCall n name args st with
            | .ok st1 => executeLines n lines (i + 1) st1
            | .sig s st1 => .sig s st1
            | .fuel => .fuel
        | .breakS => .sig .brk st
        | .continueS => .sig .cont st
        | .returnS e =>
            let (v, st1) := processReturn e st
            .sig (.ret v) st1
        | .exitS => .sig .exit (eungdi st "인터프리터 종료" false)
        | line =>
            executeLines n lines (i + 1) (interpretLine line st)

/-- `Interpreter.process_if`: evaluate the guard, scan the two blocks,
push a scope, run the selected block, pop — the pop sits on the normal
path only (there is no `try`/`finally`), so an escaping signal skips
it. -/
def processIf : Nat → List Stmt → Nat → St → ExecRes
  | 0, _, _, _ => .fuel
  | n + 1, lines, index, st =>
      match lines[index]? with
      | some (.ifS c) =>
          let (cv, st1) := evaluateExpression st c
          let (ifB, elseB, k) := scanIf (lines.drop (index + 1)) 0 false
          let st2 := pushScope st1
          match executeLines n (if truthy cv then ifB else elseB) 0 st2 with
          | .done _ st3 => .done (index + 1 + k + 1) (popScope st3)
          | .sig s st3 => .sig s st3
          | .fuel => .fuel
      | _ => .done (index + 1) (eungdi st "오류: if 구문 파싱 실패" true)
termination_by structural n lines index st => n

/-- `Interpreter.process_while`: scan the body, then run the guarded
loop; resumes after the end-while. -/
def processWhile : Nat → List Stmt → Nat → St → ExecRes
  | 0, _, _, _ => .fuel
  | n + 1, lines, index, st =>
      match lines[index]? with
      | some (.whileS c) =>
          let (block, k) := scanWhile (lines.drop (index + 1)) 0
          match whileLoop n c block st with
          | .ok st1 => .done (index + 1 + k + 1) st1
          | .sig s st1 => .sig s st1
          | .fuel => .fuel
      | _ => .done (index + 1) (eungdi st "오류: while 구문 파싱 실패" true)
termination_by structural n lines index st => n

/-- The `while self.evaluate_expression(...)` loop of `process_while`:
re-evaluate the guard, push, run the body, pop; `continue` pops and
re-evaluates, `break` pops and exits, a Return or SystemExit signal
propagates without the pop. -/
def whileLoop : Nat → Option PyAst → List Stmt → St → StepRes
  | 0, _, _, _ => .fuel
  | n + 1, c, block, st =>
      let (cv, st1) := evaluateExpression st c
      if truthy cv then
        let st2 := pushScope st1
        match executeLines n block 0 st2 with
        | .done _ st3 => whileLoop n c block (popScope st3)
        | .sig .cont st3 => whileLoop n c block (popScope st3)
        | .sig .brk st3 => .ok (popScope st3)
        | .sig s st3 => .sig s st3
        | .fuel => .fuel
      else .ok st1
termination_by structural n c block st => n

/-- `Interpreter.process_for`: evaluate the iterable (a non-iterable is
an error that continues with the *next* line, inside the unscanned
body), scan the body up to the first end-for, run the element loop;
resumes after that end-for. -/
def processFor : Nat → List Stmt → Nat → St → ExecRes
  | 0, _, _, _ => .fuel
  | n + 1, lines, index, st =>
      match lines[index]? with
      | some (.forS v iterE) =>
          let (iv, st1) := evaluateExpression st iterE
          match toIter iv with
          | none =>
              .done (index + 1)
                (eungdi st1 "오류: for문 대상이 반복 가능하지 않음" true)
          | some items =>
              let (block, k) := scanFor (lines.drop (index + 1))
              match forLoop n v block items st1 with
              | .ok st2 => .done (index + 1 + k + 1) st2
              | .sig s st2 => .sig s st2
              | .fuel => .fuel
      | _ => .done (index + 1) (eungdi st "오류: for 구문 파싱 실패" true)
termination_by structural n lines index st => n

/-- The element loop of `process_for`: per element push a fresh scope,
declare the iteration variable in it, assign the element, run the body,
pop; `continue`/`break` pop as in the while loop, Return and SystemExit
propagate without the pop. -/
def forLoop : Nat → String → List Stmt → List Value → St → StepRes
  | 0, _, _, _, _ => .fuel
  | n + 1, v, block, items, st =>
      match items with
      | [] => .ok st
      | item :: rest =>
          let st1 := assignVariable v item (declareVariable v (pushScope st))
          match executeLines n block 0 st1 with
          | .done _ st2 => forLoop n v block rest (popScope st2)
          | .sig .cont st2 => forLoop n v block rest (popScope st2)
          | .sig .brk st2 => .ok (popScope st2)
          | .sig s st2 => .sig s st2
          | .fuel => .fuel
termination_by structural n v block items st => n

/-- `Interpreter.process_func_call`: evaluate the arguments left to
right, resolve the name, reject a non-function value, else invoke the
call protocol; the returned value is discarded. -/
def processFuncCall : Nat → String → List (Option PyAst) → St → StepRes
  | 0, _, _, _ => .fuel
  | n + 1, name, args, st =>
      let (argVals, st1) := evalArgs args st
      let (fv, st2) := getVariable name st1
      match fv with
      | .funcV ps blk clos =>
          match callFunction n ps blk clos argVals st2 with
          | .val _ st3 => .ok st3
          | .sig s st3 => .sig s st3
          | .fuel => .fuel
      | _ => .ok (eungdi st2 ("오류: \"" ++ name ++ "\" 는 함수가 아님") true)
termination_by structural n name args st => n

/-- `Function.call`: reject an arity mismatch with `None` and no state
change beyond the report; else save the scope stack, install the
closure plus a fresh frame binding the parameters, run the body,
catch only a Return signal, and restore the saved stack on those two
paths (there is no `finally`: break/continue/SystemExit escape with
the stack unrestored). -/
def callFunction :
    Nat → List String → List Stmt → List Scope → List Value → St → CallRes
  | 0, _, _, _, _, _ => .fuel
  | n + 1, ps, blk, clos, args, st =>
      if args.length ≠ ps.length then
        .val .null
          (eungdi st
            ("오류: 함수 호출 인자 개수 불일치. 기대: " ++ toString ps.length ++
              ", 전달: " ++ toString args.length) true)
      else
        let old := st.scopes
        let st1 : St := { st with scopes := clos ++ [bindParams ps args] }
        match executeLines n blk 0 st1 with
        | .done _ st2 => .val .null { st2 with scopes := old }
        | .sig (.ret v) st2 => .val v { st2 with scopes := old }
        | .sig s st2 => .sig s st2
        | .fuel => .fuel
termination_by structural n ps blk clos args st => n

end

/-- Result of `interpret_program`: normal completion, termination by the
exit builtin (`SystemExit` is not an `Exception` and passes the
top-level handler), or fuel exhaustion. -/
inductive ProgRes where
  | finished (st : St)
  | exited (st : St)
  | fuel

/-- Extract the state of a program result (the `fuel` case yields the
given default). -/
def ProgRes.st : ProgRes → St
  | .finished st => st
  | .exited st => st
  | .fuel => { scopes := [], output := [] }

/-- `Interpreter.interpret_program`: run the lines from index 0; any
escaping `Exception` — in particular a break/continue/return signal
reaching the top level — is reported as the generic execution error
(`str()` of the signal exceptions is empty) and the rest of the program
is abandoned. -/
def interpretProgram (n : Nat) (lines : List Stmt) (st : St) : ProgRes :=
  match executeLines n lines 0 st with
  | .done _ st1 => .finished st1
  | .sig .exit st1 => .exited st1
  | .sig _ st1 => .finished (eungdi st1 "실행 중 오류: " true)
  | .fuel => .fuel

/-- The builtins frame installed by `Interpreter.__init__`; the callable
entries are opaque tags (no expression can call them, since `ast.Call`
is not whitelisted). -/
def initialBuiltins : Scope :=
  [("sqrt", .builtinV "sqrt"), ("sin", .builtinV "sin"),
   ("cos", .builtinV "cos"), ("tan", .builtinV "tan"),
   ("max", .builtinV "max"), ("min", .builtinV "min"),
   ("abs", .builtinV "abs"), ("round", .builtinV "round"),
   ("int", .builtinV "int"), ("str", .builtinV "str"),
   ("len", .builtinV "len"), ("log", .builtinV "log"),
   ("exp", .builtinV "exp"), ("현재시간", .builtinV "현재시간"),
   ("현재날짜", .builtinV "현재날짜"), ("JSON변환", .builtinV "JSON변환"),
   ("JSON문자열화", .builtinV "JSON문자열화")]

/-- A freshly constructed interpreter: `self.scopes = [{}]` updated with
the builtins, i.e. a single frame that is at once the builtins frame and
the top-level current frame. -/
def initSt : St :=
  { scopes := [initialBuiltins], output := [] }

/-- Statements that can raise no signal and replace no scope stack:
everything except break/continue/return, the exit builtin, the reset
builtin, and function calls (whose stored bodies could contain any of
the former). -/
def sigFreeStmt : Stmt → Bool
  | .breakS => false
  | .continueS => false
  | .returnS _ => false
  | .exitS => false
  | .resetS => false
  | .funcCallS _ _ => false
  | _ => true

/-! ## Concrete programs used by the claim theorems -/

/-- The parsed `True` literal guard. -/
def trueC : Option PyAst := some (.constant (.boolV true))

/-- A while-True loop whose body is an if whose body is a break:
the break crosses the if-scope push. -/
def breakCrossesIfProg : List Stmt :=
  [.whileS trueC, .ifS trueC, .breakS, .endIf, .endWhile]

/-- A declaration inside an if-block: balanced, signal-free. -/
def ifDeclProg : List Stmt := [.ifS trueC, .declareS "x", .endIf]

/-- Closure snapshot scenario: define `f` (whose body outputs `x`) while
`x = 1`, reassign `x` to 2 in the defining scope, call `f`. -/
def closureProg : List Stmt :=
  [.declareS "x",
   .assignS "x" (some (.constant (.intV 1))),
   .funcDefS "f" [],
   .outputS "x",
   .endFunc,
   .assignS "x" (some (.constant (.intV 2))),
   .funcCallS "f" []]

/-- A failing assignment (unbound right-hand side) followed by a print. -/
def errContinueProg : List Stmt :=
  [.assignS "x" (some (.nameE "y")), .printS "next"]

/-- A top-level break followed by a print. -/
def topBreakProg : List Stmt := [.breakS, .printS "after"]

/-- The exit builtin followed by a print. -/
def exitProg : List Stmt := [.exitS, .printS "after"]

/-- A function whose body is a stray break, then a call of it. -/
def breakInFuncProg : List Stmt :=
  [.funcDefS "f" [], .breakS, .endFunc, .funcCallS "f" []]

/-- A single top-level declaration. -/
def topDeclProg : List Stmt := [.declareS "x"]

/-- The inner iterable of the nested-for program. -/
def innerForE : Option PyAst := some (.listE [.constant (.intV 7)])

/-- A for-loop over two elements containing a nested one-element
for-loop, with a print after the inner end-for. -/
def nestedForProg : List Stmt :=
  [.forS "i" (some (.listE [.constant (.intV 1), .constant (.intV 2)])),
   .forS "j" innerForE,
   .printS "in",
   .endFor,
   .printS "outer-tail",
   .endFor]

/-- A for-loop over `[1, 2, 3]` with a continue before a print. -/
def continueForProg : List Stmt :=
  [.forS "i" (some (.listE
      [.constant (.intV 1), .constant (.intV 2), .constant (.intV 3)])),
   .outputS "i",
   .continueS,
   .printS "unreached",
   .endFor]

/-- Whether a line matches the end-for pattern. -/
def isEndForB : Stmt → Bool
  | .endFor => true
  | _ => false

/-- All statements of a program are signal-free. -/
def SigFree (lines : List Stmt) : Prop :=
  ∀ s ∈ lines, sigFreeStmt s = true

/-- The block-executor result preserves the scope-stack depth and raises
no signal. -/
def BalancedRes (st : St) : ExecRes → Prop
  | .done _ st' => st'.scopes.length = st.scopes.length
  | .sig _ _ => False
  | .fuel => True

/-- The loop result preserves the scope-stack depth and raises no
signal. -/
def BalancedStep (st : St) : StepRes → Prop
  | .ok st' => st'.scopes.length = st.scopes.length
  | .sig _ _ => False
  | .fuel => True

/-- The scope stack in the state of a block-executor result is nonempty. -/
def PosRes : ExecRes → Prop
  | .done _ st' => 0 < st'.scopes.length
  | .sig _ st' => 0 < st'.scopes.length
  | .fuel => True

/-- The scope stack in the state of a loop/statement result is nonempty. -/
def PosStep : StepRes → Prop
  | .ok st' => 0 < st'.scopes.length
  | .sig _ st' => 0 < st'.scopes.length
  | .fuel => True

/-- The scope stack in the state of a call result is nonempty. -/
def PosCall : CallRes → Prop
  | .val _ st' => 0 < st'.scopes.length
  | .sig _ st' => 0 < st'.scopes.length
  | .fuel => True

/-! ## Basic lemmas about the environment operations -/

theorem eungdi_scopes (st : St) (m : String) (e : Bool) :
    (eungdi st m e).scopes = st.scopes := rfl

theorem evaluateExpression_scopes (st : St) (e : Option PyAst) :
    (evaluateExpression st e).2.scopes = st.scopes := by
  unfold evaluateExpression
  cases safeEval e (combinedScope st.scopes) <;> rfl

theorem getVariable_scopes (k : String) (st : St) :
    (getVariable k st).2.scopes = st.scopes := by
  unfold getVariable
  cases lookupVar st.scopes k <;> rfl

theorem evalArgs_scopes (args : List (Option PyAst)) (st : St) :
    (evalArgs args st).2.scopes = st.scopes := by
  induction args generalizing st with
  | nil => rfl
  | cons e es ih =>
      unfold evalArgs
      rcases h : evaluateExpression st e with ⟨v, st1⟩
      have h1 : st1.scopes = st.scopes := by
        have := evaluateExpression_scopes st e
        rw [h] at this
        exact this
      rcases h2 : evalArgs es st1 with ⟨vs, st2⟩
      have h3 : st2.scopes = st1.scopes := by
        have := ih st1
        rw [h2] at this
        exact this
      simp [h, h2, h3, h1]

theorem updateCur_length (sc : List Scope) (f : Scope → Scope) :
    (updateCur sc f).length = sc.length := by
  induction sc with
  | nil => rfl
  | cons s rest ih => cases rest <;> simp_all [updateCur]

theorem assignInScopes_length (sc : List Scope) (k : String) (v : Value)
    (sc' : List Scope) (h : assignInScopes sc k v = some sc') :
    sc'.length = sc.length := by
  induction sc generalizing sc' with
  | nil => simp [assignInScopes] at h
  | cons s rest ih =>
      cases hrec : assignInScopes rest k v with
      | some rest' =>
          simp only [assignInScopes, hrec] at h
          cases h
          simp [ih rest' hrec]
      | none =>
          simp only [assignInScopes, hrec] at h
          split at h
          · cases h; simp
          · cases h

theorem declareVariable_length (name : String) (st : St) :
    (declareVariable name st).scopes.length = st.scopes.length := by
  unfold declareVariable
  split
  · rfl
  · simp [updateCur_length]

theorem assignVariable_length (k : String) (v : Value) (st : St) :
    (assignVariable k v st).scopes.length = st.scopes.length := by
  unfold assignVariable
  cases h : assignInScopes st.scopes k v with
  | some sc => simpa using assignInScopes_length _ _ _ _ h
  | none => rfl

theorem handleAssign_length (v : String) (e : Option PyAst) (st : St) :
    (handleAssign v e st).scopes.length = st.scopes.length := by
  unfold handleAssign
  rcases h : evaluateExpression st e with ⟨val, st1⟩
  have hs : st1.scopes = st.scopes := by
    have := evaluateExpression_scopes st e
    rw [h] at this
    exact this
  cases val <;> simp [assignVariable_length, hs]

theorem handleDeleteVar_length (v : String) (st : St) :
    (handleDeleteVar v st).scopes.length = st.scopes.length := by
  unfold handleDeleteVar
  split <;> simp [eungdi, updateCur_length]

theorem interpretLine_length (s : Stmt) (st : St)
    (h : sigFreeStmt s = true) :
    (interpretLine s st).scopes.length = st.scopes.length := by
  cases s <;>
    first
      | (simp [interpretLine, handleAssign_length, handleDeleteVar_length,
          declareVariable_length, eungdi]
         done)
      | (rename_i v
         rcases hg : getVariable v st with ⟨x, st1⟩
         have hsc : st1.scopes = st.scopes := by
           have := getVariable_scopes v st
           rw [hg] at this
           exact this
         simp [interpretLine, hg, eungdi, hsc]
         done)
      | simp [sigFreeStmt] at h

theorem processFuncDef_length (lines : List Stmt) (i : Nat) (st : St) :
    (processFuncDef lines i st).2.scopes.length = st.scopes.length := by
  unfold processFuncDef
  cases h : lines[i]? with
  | none => rfl
  | some s =>
      cases s <;>
        simp [assignVariable_length, declareVariable_length, eungdi]

theorem popScope_length (st : St) :
    (popScope st).scopes.length =
      if 1 < st.scopes.length then st.scopes.length - 1
      else st.scopes.length := by
  unfold popScope
  split <;> simp_all [List.length_dropLast, eungdi]

theorem pushScope_length (st : St) :
    (pushScope st).scopes.length = st.scopes.length + 1 := by
  simp [pushScope]

/-! ## Lemmas about block extraction -/

theorem scanIf_subset (rest : List Stmt) (nested : Nat) (inElse : Bool) :
    (scanIf rest nested inElse).1 ⊆ rest ∧
      (scanIf rest nested inElse).2.1 ⊆ rest := by
  induction rest generalizing nested inElse with
  | nil => simp [scanIf]
  | cons curr tl ih =>
      have h1 : ∀ n e, (scanIf tl n e).1 ⊆ curr :: tl :=
        fun n e => (ih n e).1.trans (List.subset_cons_self curr tl)
      have h2 : ∀ n e, (scanIf tl n e).2.1 ⊆ curr :: tl :=
        fun n e => (ih n e).2.trans (List.subset_cons_self curr tl)
      have hc1 : ∀ n e, curr :: (scanIf tl n e).1 ⊆ curr :: tl :=
        fun n e => List.cons_subset_cons curr (ih n e).1
      have hc2 : ∀ n e, curr :: (scanIf tl n e).2.1 ⊆ curr :: tl :=
        fun n e => List.cons_subset_cons curr (ih n e).2
      cases curr <;>
        simp only [scanIf] <;>
        refine ⟨?_, ?_⟩ <;>
        (repeat' split) <;>
        first
          | exact h1 _ _
          | exact h2 _ _
          | exact hc1 _ _
          | exact hc2 _ _
          | simp

theorem scanWhile_subset (rest : List Stmt) (nested : Nat) :
    (scanWhile rest nested).1 ⊆ rest := by
  induction rest generalizing nested with
  | nil => simp [scanWhile]
  | cons curr tl ih =>
      cases curr <;>
        simp only [scanWhile] <;>
        (repeat' split) <;>
        first
          | exact List.cons_subset_cons _ (ih _)
          | simp

/-- `process_for` extracts the body up to the *first* end-for line:
the scan is exactly `takeWhile`, with no nesting counter. -/
theorem scanFor_eq (rest : List Stmt) :
    scanFor rest =
      (rest.takeWhile (fun s => !isEndForB s),
        (rest.takeWhile (fun s => !isEndForB s)).length) := by
  induction rest with
  | nil => rfl
  | cons curr tl ih =>
      cases curr <;> simp [scanFor, List.takeWhile, isEndForB, ih]

theorem scanFor_subset (rest : List Stmt) :
    (scanFor rest).1 ⊆ rest := by
  rw [scanFor_eq]
  exact List.takeWhile_subset _

/-! ## Scope balance for signal-free programs -/

theorem SigFree.drop {lines : List Stmt} (h : SigFree lines) (m : Nat) :
    SigFree (lines.drop m) :=
  fun s hs => h s (List.drop_subset m lines hs)

theorem SigFree.subset {lines block : List Stmt} (h : SigFree lines)
    (hsub : block ⊆ lines) : SigFree block :=
  fun s hs => h s (hsub hs)

theorem balancedRes_mono {st st1 : St}
    (h1 : st1.scopes.length = st.scopes.length) {r : ExecRes}
    (hB : BalancedRes st1 r) : BalancedRes st r := by
  cases r with
  | done j st2 => simp only [BalancedRes] at hB ⊢; omega
  | sig s st2 => exact hB.elim
  | fuel => trivial

theorem balancedStep_mono {st st1 : St}
    (h1 : st1.scopes.length = st.scopes.length) {r : StepRes}
    (hB : BalancedStep st1 r) : BalancedStep st r := by
  cases r with
  | ok st2 => simp only [BalancedStep] at hB ⊢; omega
  | sig s st2 => exact hB.elim
  | fuel => trivial

set_option maxHeartbeats 1000000 in
theorem balanced_all (n : Nat) :
    (∀ lines i st, SigFree lines → 0 < st.scopes.length →
       BalancedRes st (executeLines n lines i st)) ∧
    (∀ lines i st, SigFree lines → 0 < st.scopes.length →
       BalancedRes st (processIf n lines i st)) ∧
    (∀ lines i st, SigFree lines → 0 < st.scopes.length →
       BalancedRes st (processWhile n lines i st)) ∧
    (∀ c block st, SigFree block → 0 < st.scopes.length →
       BalancedStep st (whileLoop n c block st)) ∧
    (∀ lines i st, SigFree lines → 0 < st.scopes.length →
       BalancedRes st (processFor n lines i st)) ∧
    (∀ v block items st, SigFree block → 0 < st.scopes.length →
       BalancedStep st (forLoop n v block items st)) := by
  induction n with
  | zero =>
      refine ⟨?_, ?_, ?_, ?_, ?_, ?_⟩ <;> intros <;>
        simp [executeLines, processIf, processWhile, whileLoop, processFor,
          forLoop, BalancedRes, BalancedStep]
  | succ n ih =>
      obtain ⟨ihE, ihI, ihW, ihWL, ihF, ihFL⟩ := ih
      refine ⟨?_, ?_, ?_, ?_, ?_, ?_⟩
      · -- executeLines
        intro lines i st hf hpos
        cases hline : lines[i]? with
        | none => simp [executeLines, hline, BalancedRes]
        | some line =>
            have hsf : sigFreeStmt line = true := hf line (List.getElem?_mem hline)
            have hdefault : ∀ line', lines[i]? = some line' →
                sigFreeStmt line' = true →
                executeLines (n + 1) lines i st =
                  executeLines n lines (i + 1) (interpretLine line' st) →
                BalancedRes st (executeLines (n + 1) lines i st) := by
              intro line' hline' hsf' heq
              rw [heq]
              exact balancedRes_mono (interpretLine_length line' st hsf')
                (ihE lines (i + 1) (interpretLine line' st) hf
                  (by have := interpretLine_length line' st hsf'; omega))
            have hcompound : ∀ r : ExecRes, BalancedRes st r →
                BalancedRes st
                  (match r with
                    | ExecRes.done j st1 => executeLines n lines j st1
                    | r => r) := by
              intro r hr
              cases r with
              | done j st1 =>
                  simp only [BalancedRes] at hr
                  exact balancedRes_mono hr
                    (ihE lines j st1 hf (by omega))
              | sig s st1 => exact absurd hr (by simp [BalancedRes])
              | fuel => simp [BalancedRes]
            cases line
            case blank =>
                simpa [executeLines, hline] using ihE lines (i + 1) st hf hpos
            case ifS c =>
                have h1 := hcompound _ (ihI lines i st hf hpos)
                simpa [executeLines, hline] using h1
            case whileS c =>
                have h1 := hcompound _ (ihW lines i st hf hpos)
                simpa [executeLines, hline] using h1
            case forS v e =>
                have h1 := hcompound _ (ihF lines i st hf hpos)
                simpa [executeLines, hline] using h1
            case funcDefS name params =>
                have hlen : (processFuncDef lines i st).2.scopes.length =
                    st.scopes.length := processFuncDef_length lines i st
                simp only [executeLines, hline]
                exact balancedRes_mono hlen
                  (ihE lines (processFuncDef lines i st).1
                    (processFuncDef lines i st).2 hf (by omega))
            case funcCallS name args => simp [sigFreeStmt] at hsf
            case breakS => simp [sigFreeStmt] at hsf
            case continueS => simp [sigFreeStmt] at hsf
            case returnS e => simp [sigFreeStmt] at hsf
            case exitS => simp [sigFreeStmt] at hsf
            case resetS => simp [sigFreeStmt] at hsf
            all_goals exact hdefault _ hline hsf (by simp [executeLines, hline])
      · -- processIf
        intro lines i st hf hpos
        cases hline : lines[i]? with
        | none => simp [processIf, hline, BalancedRes, eungdi]
        | some line =>
            cases line
            case ifS c =>
                rcases hev : evaluateExpression st c with ⟨cv, st1⟩
                have hs1 : st1.scopes = st.scopes := by
                  have := evaluateExpression_scopes st c
                  rw [hev] at this
                  exact this
                have hmain : ∀ block : List Stmt, SigFree block → ∀ m : Nat,
                    BalancedRes st
                      (match executeLines n block 0 (pushScope st1) with
                        | ExecRes.done j st3 => ExecRes.done m (popScope st3)
                        | ExecRes.sig s st3 => ExecRes.sig s st3
                        | ExecRes.fuel => ExecRes.fuel) := by
                  intro block hfb m
                  have hbody := ihE block 0 (pushScope st1) hfb
                    (by simp [pushScope_length])
                  revert hbody
                  generalize executeLines n block 0 (pushScope st1) = r
                  intro hbody
                  cases r with
                  | done j st3 =>
                      simp only [BalancedRes, pushScope_length, hs1] at hbody
                      simp only [BalancedRes]
                      rw [popScope_length]
                      split <;> omega
                  | sig s st3 => exact absurd hbody (by simp [BalancedRes])
                  | fuel => trivial
                cases htr : truthy cv with
                | true =>
                    have h1 := hmain (scanIf (lines.drop (i + 1)) 0 false).1
                      ((hf.drop (i + 1)).subset (scanIf_subset _ 0 false).1)
                      (i + 1 + (scanIf (lines.drop (i + 1)) 0 false).2.2 + 1)
                    simpa [processIf, hline, hev, htr] using h1
                | false =>
                    have h1 := hmain (scanIf (lines.drop (i + 1)) 0 false).2.1
                      ((hf.drop (i + 1)).subset (scanIf_subset _ 0 false).2)
                      (i + 1 + (scanIf (lines.drop (i + 1)) 0 false).2.2 + 1)
                    simpa [processIf, hline, hev, htr] using h1
            all_goals simp [processIf, hline, BalancedRes, eungdi]
      · -- processWhile
        intro lines i st hf hpos
        cases hline : lines[i]? with
        | none => simp [processWhile, hline, BalancedRes, eungdi]
        | some line =>
            cases line
            case whileS c =>
                have hfb : SigFree (scanWhile (lines.drop (i + 1)) 0).1 :=
                  (hf.drop (i + 1)).subset (scanWhile_subset _ 0)
                have hloop := ihWL c (scanWhile (lines.drop (i + 1)) 0).1 st hfb hpos
                simp only [processWhile, hline]
                revert hloop
                generalize whileLoop n c (scanWhile (lines.drop (i + 1)) 0).1 st = r
                intro hloop
                cases r with
                | ok st1 => exact hloop
                | sig s st1 => exact absurd hloop (by simp [BalancedStep])
                | fuel => trivial
            all_goals simp [processWhile, hline, BalancedRes, eungdi]
      · -- whileLoop
        intro c block st hfb hpos
        rcases hev : evaluateExpression st c with ⟨cv, st1⟩
        have hs1 : st1.scopes = st.scopes := by
          have := evaluateExpression_scopes st c
          rw [hev] at this
          exact this
        cases htr : truthy cv with
        | false => simp [whileLoop, hev, htr, BalancedStep, hs1]
        | true =>
            have hbody := ihE block 0 (pushScope st1) hfb
              (by simp [pushScope_length])
            simp only [whileLoop, hev, htr]
            revert hbody
            generalize executeLines n block 0 (pushScope st1) = r
            intro hbody
            cases r with
            | done j st3 =>
                simp only [BalancedRes, pushScope_length, hs1] at hbody
                have hpop : (popScope st3).scopes.length = st.scopes.length := by
                  rw [popScope_length]
                  split <;> omega
                exact balancedStep_mono hpop
                  (ihWL c block (popScope st3) hfb (by omega))
            | sig s st3 => exact absurd hbody (by simp [BalancedRes])
            | fuel => trivial
      · -- processFor
        intro lines i st hf hpos
        cases hline : lines[i]? with
        | none => simp [processFor, hline, BalancedRes, eungdi]
        | some line =>
            cases line
            case forS v e =>
                rcases hev : evaluateExpression st e with ⟨iv, st1⟩
                have hs1 : st1.scopes = st.scopes := by
                  have := evaluateExpression_scopes st e
                  rw [hev] at this
                  exact this
                cases hit : toIter iv with
                | none =>
                    simp [processFor, hline, hev, hit, BalancedRes, eungdi, hs1]
                | some items =>
                    have hfb : SigFree (scanFor (lines.drop (i + 1))).1 :=
                      (hf.drop (i + 1)).subset (scanFor_subset _)
                    have hloop := ihFL v (scanFor (lines.drop (i + 1))).1 items st1
                      hfb (by rw [hs1]; exact hpos)
                    simp only [processFor, hline, hev, hit]
                    revert hloop
                    generalize forLoop n v (scanFor (lines.drop (i + 1))).1
                      items st1 = r
                    intro hloop
                    cases r with
                    | ok st2 =>
                        simp only [BalancedStep, hs1] at hloop
                        simp only [BalancedRes]
                        omega
                    | sig s st2 => exact absurd hloop (by simp [BalancedStep])
                    | fuel => trivial
            all_goals simp [processFor, hline, BalancedRes, eungdi]
      · -- forLoop
        intro v block items st hfb hpos
        cases items with
        | nil => simp [forLoop, BalancedStep]
        | cons item rest =>
            have hlen1 :
                (assignVariable v item
                  (declareVariable v (pushScope st))).scopes.length =
                  st.scopes.length + 1 := by
              rw [assignVariable_length, declareVariable_length,
                pushScope_length]
            have hbody := ihE block 0
              (assignVariable v item (declareVariable v (pushScope st))) hfb
              (by omega)
            simp only [forLoop]
            revert hbody
            generalize executeLines n block 0
              (assignVariable v item (declareVariable v (pushScope st))) = r
            intro hbody
            cases r with
            | done j st2 =>
                simp only [BalancedRes, hlen1] at hbody
                have hpop : (popScope st2).scopes.length = st.scopes.length := by
                  rw [popScope_length]
                  split <;> omega
                exact balancedStep_mono hpop
                  (ihFL v block rest (popScope st2) hfb (by omega))
            | sig s st2 => exact absurd hbody (by simp [BalancedRes])
            | fuel => trivial

/-! ## The scope stack never becomes empty (the builtins frame is never
popped away) -/

theorem popScope_pos (st : St) (h : 0 < st.scopes.length) :
    0 < (popScope st).scopes.length := by
  rw [popScope_length]
  split <;> omega

theorem processReturn_scopes (e : Option (Option PyAst)) (st : St) :
    (processReturn e st).2.scopes = st.scopes := by
  unfold processReturn
  cases e with
  | none => rfl
  | some ex => exact evaluateExpression_scopes st ex

theorem interpretLine_pos (s : Stmt) (st : St) (h : 0 < st.scopes.length) :
    0 < (interpretLine s st).scopes.length := by
  cases s <;>
    first
      | (simp [interpretLine, handleAssign_length, handleDeleteVar_length,
          declareVariable_length, eungdi, handleReset]
         done)
      | (simp [interpretLine, handleAssign_length, handleDeleteVar_length,
          declareVariable_length, eungdi]
         omega
         done)
      | (rename_i v
         rcases hg : getVariable v st with ⟨x, st1⟩
         have hsc : st1.scopes = st.scopes := by
           have := getVariable_scopes v st
           rw [hg] at this
           exact this
         simp [interpretLine, hg, eungdi, hsc]
         omega)

set_option maxHeartbeats 1000000 in
theorem pos_all (n : Nat) :
    (∀ lines i st, 0 < st.scopes.length →
       PosRes (executeLines n lines i st)) ∧
    (∀ lines i st, 0 < st.scopes.length →
       PosRes (processIf n lines i st)) ∧
    (∀ lines i st, 0 < st.scopes.length →
       PosRes (processWhile n lines i st)) ∧
    (∀ c block st, 0 < st.scopes.length →
       PosStep (whileLoop n c block st)) ∧
    (∀ lines i st, 0 < st.scopes.length →
       PosRes (processFor n lines i st)) ∧
    (∀ v block items st, 0 < st.scopes.length →
       PosStep (forLoop n v block items st)) ∧
    (∀ name args st, 0 < st.scopes.length →
       PosStep (processFuncCall n name args st)) ∧
    (∀ ps blk clos args st, 0 < st.scopes.length →
       PosCall (callFunction n ps blk clos args st)) := by
  induction n with
  | zero =>
      refine ⟨?_, ?_, ?_, ?_, ?_, ?_, ?_, ?_⟩ <;> intros <;>
        simp [executeLines, processIf, processWhile, whileLoop, processFor,
          forLoop, processFuncCall, callFunction, PosRes, PosStep, PosCall]
  | succ n ih =>
      obtain ⟨ihE, ihI, ihW, ihWL, ihF, ihFL, ihC, ihCF⟩ := ih
      refine ⟨?_, ?_, ?_, ?_, ?_, ?_, ?_, ?_⟩
      · -- executeLines
        intro lines i st hpos
        cases hline : lines[i]? with
        | none => simpa [executeLines, hline, PosRes] using hpos
        | some line =>
            have hcompound : ∀ r : ExecRes, PosRes r →
                PosRes
                  (match r with
                    | ExecRes.done j st1 => executeLines n lines j st1
                    | r => r) := by
              intro r hr
              cases r with
              | done j st1 => exact ihE lines j st1 hr
              | sig s st1 => exact hr
              | fuel => trivial
            have hdefault : ∀ line', lines[i]? = some line' →
                executeLines (n + 1) lines i st =
                  executeLines n lines (i + 1) (interpretLine line' st) →
                PosRes (executeLines (n + 1) lines i st) := by
              intro line' hline' heq
              rw [heq]
              exact ihE lines (i + 1) (interpretLine line' st)
                (interpretLine_pos line' st hpos)
            cases line
            case blank =>
                simpa [executeLines, hline] using ihE lines (i + 1) st hpos
            case ifS c =>
                have h1 := hcompound _ (ihI lines i st hpos)
                simpa [executeLines, hline] using h1
            case whileS c =>
                have h1 := hcompound _ (ihW lines i st hpos)
                simpa [executeLines, hline] using h1
            case forS v e =>
                have h1 := hcompound _ (ihF lines i st hpos)
                simpa [executeLines, hline] using h1
            case funcDefS name params =>
                have hlen : (processFuncDef lines i st).2.scopes.length =
                    st.scopes.length := processFuncDef_length lines i st
                simp only [executeLines, hline]
                exact ihE lines (processFuncDef lines i st).1
                  (processFuncDef lines i st).2 (by omega)
            case funcCallS name args =>
                have hcall := ihC name args st hpos
                simp only [executeLines, hline]
                revert hcall
                generalize processFuncCall n name args st = r
                intro hcall
                cases r with
                | ok st1 => exact ihE lines (i + 1) st1 hcall
                | sig s st1 => exact hcall
                | fuel => trivial
            case breakS => simpa [executeLines, hline, PosRes] using hpos
            case continueS => simpa [executeLines, hline, PosRes] using hpos
            case returnS e =>
                have hsc := processReturn_scopes e st
                simp only [executeLines, hline]
                rcases hpr : processReturn e st with ⟨v, st1⟩
                rw [hpr] at hsc
                simp only [PosRes]
                rw [hsc]
                exact hpos
            case exitS => simpa [executeLines, hline, PosRes, eungdi] using hpos
            all_goals
              exact hdefault _ hline (by simp [executeLines, hline])
      · -- processIf
        intro lines i st hpos
        cases hline : lines[i]? with
        | none => simpa [processIf, hline, PosRes, eungdi] using hpos
        | some line =>
            cases line
            case ifS c =>
                rcases hev : evaluateExpression st c with ⟨cv, st1⟩
                have hs1 : st1.scopes = st.scopes := by
                  have := evaluateExpression_scopes st c
                  rw [hev] at this
                  exact this
                have hbody := ihE (if truthy cv = true
                    then (scanIf (lines.drop (i + 1)) 0 false).1
                    else (scanIf (lines.drop (i + 1)) 0 false).2.1) 0
                  (pushScope st1) (by simp [pushScope_length])
                simp only [processIf, hline, hev]
                revert hbody
                generalize executeLines n (if truthy cv = true
                    then (scanIf (lines.drop (i + 1)) 0 false).1
                    else (scanIf (lines.drop (i + 1)) 0 false).2.1) 0
                  (pushScope st1) = r
                intro hbody
                cases r with
                | done j st3 =>
                    simp only [PosRes] at hbody ⊢
                    exact popScope_pos st3 hbody
                | sig s st3 => exact hbody
                | fuel => trivial
            all_goals simpa [processIf, hline, PosRes, eungdi] using hpos
      · -- processWhile
        intro lines i st hpos
        cases hline : lines[i]? with
        | none => simpa [processWhile, hline, PosRes, eungdi] using hpos
        | some line =>
            cases line
            case whileS c =>
                have hloop := ihWL c (scanWhile (lines.drop (i + 1)) 0).1 st hpos
                simp only [processWhile, hline]
                revert hloop
                generalize whileLoop n c (scanWhile (lines.drop (i + 1)) 0).1 st = r
                intro hloop
                cases r with
                | ok st1 => exact hloop
                | sig s st1 => exact hloop
                | fuel => trivial
            all_goals simpa [processWhile, hline, PosRes, eungdi] using hpos
      · -- whileLoop
        intro c block st hpos
        rcases hev : evaluateExpression st c with ⟨cv, st1⟩
        have hs1 : st1.scopes = st.scopes := by
          have := evaluateExpression_scopes st c
          rw [hev] at this
          exact this
        cases htr : truthy cv with
        | false =>
            simpa [whileLoop, hev, htr, PosStep, hs1] using hpos
        | true =>
            have hbody := ihE block 0 (pushScope st1)
              (by simp [pushScope_length])
            simp only [whileLoop, hev, htr]
            revert hbody
            generalize executeLines n block 0 (pushScope st1) = r
            intro hbody
            cases r with
            | done j st3 =>
                simp only [PosRes] at hbody
                exact ihWL c block (popScope st3) (popScope_pos st3 hbody)
            | sig s st3 =>
                simp only [PosRes] at hbody
                cases s with
                | cont => exact ihWL c block (popScope st3) (popScope_pos st3 hbody)
                | brk => simpa [PosStep] using popScope_pos st3 hbody
                | ret v => exact hbody
                | exit => exact hbody
            | fuel => trivial
      · -- processFor
        intro lines i st hpos
        cases hline : lines[i]? with
        | none => simpa [processFor, hline, PosRes, eungdi] using hpos
        | some line =>
            cases line
            case forS v e =>
                rcases hev : evaluateExpression st e with ⟨iv, st1⟩
                have hs1 : st1.scopes = st.scopes := by
                  have := evaluateExpression_scopes st e
                  rw [hev] at this
                  exact this
                cases hit : toIter iv with
                | none =>
                    simp only [processFor, hline, hev, hit]
                    simp only [PosRes, eungdi]
                    rw [hs1]
                    exact hpos
                | some items =>
                    have hloop := ihFL v (scanFor (lines.drop (i + 1))).1 items st1
                      (by rw [hs1]; exact hpos)
                    simp only [processFor, hline, hev, hit]
                    revert hloop
                    generalize forLoop n v (scanFor (lines.drop (i + 1))).1
                      items st1 = r
                    intro hloop
                    cases r with
                    | ok st2 => exact hloop
                    | sig s st2 => exact hloop
                    | fuel => trivial
            all_goals simpa [processFor, hline, PosRes, eungdi] using hpos
      · -- forLoop
        intro v block items st hpos
        cases items with
        | nil => simpa [forLoop, PosStep] using hpos
        | cons item rest =>
            have hlen1 :
                (assignVariable v item
                  (declareVariable v (pushScope st))).scopes.length =
                  st.scopes.length + 1 := by
              rw [assignVariable_length, declareVariable_length,
                pushScope_length]
            have hbody := ihE block 0
              (assignVariable v item (declareVariable v (pushScope st)))
              (by omega)
            simp only [forLoop]
            revert hbody
            generalize executeLines n block 0
              (assignVariable v item (declareVariable v (pushScope st))) = r
            intro hbody
            cases r with
            | done j st2 =>
                simp only [PosRes] at hbody
                exact ihFL v block rest (popScope st2) (popScope_pos st2 hbody)
            | sig s st2 =>
                simp only [PosRes] at hbody
                cases s with
                | cont => exact ihFL v block rest (popScope st2) (popScope_pos st2 hbody)
                | brk => simpa [PosStep] using popScope_pos st2 hbody
                | ret v2 => exact hbody
                | exit => exact hbody
            | fuel => trivial
      · -- processFuncCall
        intro name args st hpos
        rcases hargs : evalArgs args st with ⟨argVals, st1⟩
        have hsc1 : st1.scopes = st.scopes := by
          have := evalArgs_scopes args st
          rw [hargs] at this
          exact this
        rcases hget : getVariable name st1 with ⟨fv, st2⟩
        have hsc2 : st2.scopes = st1.scopes := by
          have := getVariable_scopes name st1
          rw [hget] at this
          exact this
        have hpos2 : 0 < st2.scopes.length := by rw [hsc2, hsc1]; exact hpos
        cases fv
        case funcV ps blk clos =>
            have hcall := ihCF ps blk clos argVals st2 hpos2
            simp only [processFuncCall, hargs, hget]
            revert hcall
            generalize callFunction n ps blk clos argVals st2 = r
            intro hcall
            cases r with
            | val v2 st3 => exact hcall
            | sig s st3 => exact hcall
            | fuel => trivial
        all_goals simpa [processFuncCall, hargs, hget, PosStep, eungdi] using hpos2
      · -- callFunction
        intro ps blk clos args st hpos
        rcases eq_or_ne args.length ps.length with heq | hne
        · simp only [callFunction]
          rw [if_neg (by simp [heq])]
          have hbody := ihE blk 0
            { st with scopes := clos ++ [bindParams ps args] }
            (by simp)
          revert hbody
          generalize executeLines n blk 0
            { st with scopes := clos ++ [bindParams ps args] } = r
          intro hbody
          cases r with
          | done j st2 => simpa [PosCall] using hpos
          | sig s st2 =>
              cases s with
              | ret v => simpa [PosCall] using hpos
              | brk => exact hbody
              | cont => exact hbody
              | exit => exact hbody
          | fuel => trivial
        · simp only [callFunction]
          rw [if_pos hne]
          simpa [PosCall, eungdi] using hpos

/-! ## Short-circuit laws of the boolean operators -/

theorem evalAll_append_falsy (env : Scope) (pre post : List PyAst) (x : PyAst)
    (vx : Value)
    (hpre : ∀ p ∈ pre, ∃ v, evalNode p env = .ok v ∧ truthy v = true)
    (hx : evalNode x env = .ok vx) (hfx : truthy vx = false) :
    evalAll (pre ++ x :: post) env = .ok false := by
  induction pre with
  | nil => simp [evalAll, hx, hfx, Bind.bind, Except.bind, Pure.pure, Except.pure]
  | cons p ps ih =>
      obtain ⟨v, hv, htv⟩ := hpre p (by simp)
      have hih := ih (fun q hq => hpre q (by simp [hq]))
      simp [evalAll, hv, htv, hih, Bind.bind, Except.bind, Pure.pure, Except.pure]

theorem evalAny_append_truthy (env : Scope) (pre post : List PyAst) (x : PyAst)
    (vx : Value)
    (hpre : ∀ p ∈ pre, ∃ v, evalNode p env = .ok v ∧ truthy v = false)
    (hx : evalNode x env = .ok vx) (htx : truthy vx = true) :
    evalAny (pre ++ x :: post) env = .ok true := by
  induction pre with
  | nil => simp [evalAny, hx, htx, Bind.bind, Except.bind, Pure.pure, Except.pure]
  | cons p ps ih =>
      obtain ⟨v, hv, htv⟩ := hpre p (by simp)
      have hih := ih (fun q hq => hpre q (by simp [hq]))
      simp [evalAny, hv, htv, hih, Bind.bind, Except.bind, Pure.pure, Except.pure]

/-! ## The verified claims -/

/-- C1 (corrected, counterexample): the claim says every scope push of
the block executor is paired with a pop on every control-flow exit path,
so the scope stack keeps its depth across execution.  In
`breakCrossesIfProg` a break raised inside an if-body skips the
`process_if` pop; the enclosing while catches the break and pops only
one frame, so the run ends with two frames where it began with one. -/
theorem scope_balance_leak_counterexample :
    (interpretProgram 60 breakCrossesIfProg initSt).st.scopes.length = 2 ∧
    initSt.scopes.length = 1 :=
  ⟨rfl, rfl⟩

/-- C1 (amended): for programs none of whose statements can raise a
signal or replace the scope stack (no break/continue/return, no exit, no
reset, no function call), execution preserves the scope-stack depth:
every push of the block executor is paired with a pop. -/
theorem scope_balance_signal_free (n : Nat) (lines : List Stmt)
    (st st' : St) (hf : ∀ s ∈ lines, sigFreeStmt s = true)
    (hpos : 0 < st.scopes.length)
    (hrun : interpretProgram n lines st = .finished st') :
    st'.scopes.length = st.scopes.length := by
  have hb := (balanced_all n).1 lines 0 st hf hpos
  unfold interpretProgram at hrun
  revert hb hrun
  generalize executeLines n lines 0 st = r
  intro hrun hb
  cases r with
  | done j st1 =>
      cases hrun
      simpa [BalancedRes] using hb
  | sig s st1 => exact hb.elim
  | fuel => cases hrun

/-- Witness for C1: a signal-free program (a declaration inside an
if-block) preserves the single-frame stack. -/
theorem scope_balance_signal_free_witness :
    (∀ s ∈ ifDeclProg, sigFreeStmt s = true) ∧ 0 < initSt.scopes.length ∧
    interpretProgram 10 ifDeclProg initSt = .finished initSt ∧
    initSt.scopes.length = initSt.scopes.length :=
  ⟨by decide, by decide, rfl,
    scope_balance_signal_free 10 ifDeclProg initSt initSt (by decide)
      (by decide) rfl⟩

/-- C2 (confirmed): a function defined while `x = 1` observes `x == 1`
when called after `x` has been reassigned to 2 in the defining scope —
the closure captured at definition time is a deep snapshot of the scope
stack. -/
theorem closure_snapshot :
    (interpretProgram 60 closureProg initSt).st.output = [("1", false)] ∧
    lookupVar (interpretProgram 60 closureProg initSt).st.scopes "x" =
      some (.intV 2) :=
  ⟨rfl, rfl⟩

/-- C3 (corrected, counterexample): the claim says a break escaping to
the top level is reported as an error *rather than terminating the rest
of the program*.  In `topBreakProg` the statement after the break never
runs: its print does not appear in the output. -/
theorem top_level_break_aborts_counterexample :
    ¬ ("after", false) ∈ (interpretProgram 60 topBreakProg initSt).st.output := by
  intro h
  rw [show (interpretProgram 60 topBreakProg initSt).st.output =
      [("실행 중 오류: ", true)] from rfl] at h
  simp at h

/-- C3 (amended): a runtime error inside a statement is reported and
execution continues with the next line; but a break/continue/return
signal escaping to the top level is caught by the program-level handler,
reported as the generic execution error, and the rest of the program is
abandoned; only the exit builtin terminates the interpreter (also
abandoning the rest, without an error report). -/
theorem statement_recovery_and_signal_abort :
    (interpretProgram 60 errContinueProg initSt).st.output =
      [("오류: 수식 평가 중 문제 발생 - 안전하지 않은 표현식: 변수 \"y\"가 선언되지 않음",
         true),
       ("next", false)] ∧
    interpretProgram 60 topBreakProg initSt =
      .finished { scopes := [initialBuiltins],
                  output := [("실행 중 오류: ", true)] } ∧
    interpretProgram 60 exitProg initSt =
      .exited { scopes := [initialBuiltins],
                output := [("인터프리터 종료", false)] } :=
  ⟨rfl, rfl, rfl⟩

/-- C4 (corrected, counterexample): the claim says the saved scope stack
is restored *unconditionally*.  A stray break in a function body escapes
`Function.call` without the restore: after running `breakInFuncProg` the
interpreter is left with the callee stack (two frames) instead of the
caller one (one frame). -/
theorem call_unrestored_stack_counterexample :
    (interpretProgram 60 breakInFuncProg initSt).st.scopes.length = 2 ∧
    initSt.scopes.length = 1 :=
  ⟨rfl, rfl⟩

/-- C4 (amended): with matching arity, `Function.call` restores the
saved scope stack when the body completes normally (returning null) and
when a Return signal is caught (returning its value); a break, continue
or SystemExit signal left uncaught by the body escapes the call with the
stack unrestored, propagating to the constructs enclosing the call
site. -/
theorem call_exit_protocol (n : Nat) (ps : List String) (blk : List Stmt)
    (clos : List Scope) (args : List Value) (st : St)
    (harity : args.length = ps.length) :
    (∀ j st2,
      executeLines n blk 0 { st with scopes := clos ++ [bindParams ps args] } =
          .done j st2 →
      callFunction (n + 1) ps blk clos args st =
        .val .null { st2 with scopes := st.scopes }) ∧
    (∀ v st2,
      executeLines n blk 0 { st with scopes := clos ++ [bindParams ps args] } =
          .sig (.ret v) st2 →
      callFunction (n + 1) ps blk clos args st =
        .val v { st2 with scopes := st.scopes }) ∧
    (∀ s st2, (s = Signal.brk ∨ s = Signal.cont ∨ s = Signal.exit) →
      executeLines n blk 0 { st with scopes := clos ++ [bindParams ps args] } =
          .sig s st2 →
      callFunction (n + 1) ps blk clos args st = .sig s st2) := by
  refine ⟨?_, ?_, ?_⟩
  · intro j st2 h
    simp only [callFunction]
    rw [if_neg (by simp [harity]), h]
  · intro v st2 h
    simp only [callFunction]
    rw [if_neg (by simp [harity]), h]
  · intro s st2 hs h
    simp only [callFunction]
    rw [if_neg (by simp [harity]), h]
    rcases hs with rfl | rfl | rfl <;> rfl

/-- Witness for C4: an empty body completes normally and the original
one-frame stack is restored, with null returned. -/
theorem call_exit_protocol_witness :
    ([] : List Value).length = ([] : List String).length ∧
    executeLines 1 [] 0 { initSt with scopes := [] ++ [bindParams [] []] } =
      .done 0 { initSt with scopes := [[]] } ∧
    callFunction 2 [] [] [] [] initSt = .val .null initSt :=
  ⟨rfl, rfl, (call_exit_protocol 1 [] [] [] [] initSt rfl).1 0
    { initSt with scopes := [[]] } rfl⟩

/-- C5 (corrected, counterexample): the claim says user declarations
live in frames at indices 1 and above and the builtins frame is mutated
only by reset.  But a freshly constructed interpreter has a single frame
that is both the builtins frame and the top-level current frame, so a
top-level declaration (not a reset, not an assignment to a builtin name)
adds a binding to frame 0. -/
theorem builtins_frame_mutated_counterexample :
    scopeGet ((interpretProgram 10 topDeclProg initSt).st.scopes.headD [])
        "x" = some Value.null ∧
    scopeGet initialBuiltins "x" = none :=
  ⟨rfl, rfl⟩

/-- C5 (amended): the frame at index 0 is never popped — the scope stack
never becomes empty on any execution path, normal or signalling
(`pop_scope` refuses to drop the last frame) — but it doubles as the
top-level user frame; a declaration executed inside a pushed block scope
leaves it unchanged. -/
theorem builtins_frame_never_popped :
    (∀ n lines st st', 0 < st.scopes.length →
      interpretProgram n lines st = .finished st' →
      0 < st'.scopes.length) ∧
    (∀ n lines st st', 0 < st.scopes.length →
      interpretProgram n lines st = .exited st' →
      0 < st'.scopes.length) ∧
    (interpretProgram 10 ifDeclProg initSt).st.scopes = [initialBuiltins] := by
  refine ⟨?_, ?_, rfl⟩
  · intro n lines st st' hpos hrun
    have hb := (pos_all n).1 lines 0 st hpos
    unfold interpretProgram at hrun
    revert hb hrun
    generalize executeLines n lines 0 st = r
    intro hrun hb
    cases r with
    | done j st1 => cases hrun; exact hb
    | sig s st1 =>
        cases s with
        | exit => cases hrun
        | brk => cases hrun; simpa [eungdi] using hb
        | cont => cases hrun; simpa [eungdi] using hb
        | ret v => cases hrun; simpa [eungdi] using hb
    | fuel => cases hrun
  · intro n lines st st' hpos hrun
    have hb := (pos_all n).1 lines 0 st hpos
    unfold interpretProgram at hrun
    revert hb hrun
    generalize executeLines n lines 0 st = r
    intro hrun hb
    cases r with
    | done j st1 => cases hrun
    | sig s st1 =>
        cases s with
        | exit => cases hrun; exact hb
        | brk => cases hrun
        | cont => cases hrun
        | ret v => cases hrun
    | fuel => cases hrun

/-- Witness for C5: after a top-level declaration the stack is still
nonempty. -/
theorem builtins_frame_never_popped_witness :
    0 < initSt.scopes.length ∧
    0 < ({ scopes := [initialBuiltins ++ [("x", Value.null)]],
           output := [] } : St).scopes.length :=
  ⟨by decide,
    builtins_frame_never_popped.1 10 topDeclProg initSt
      { scopes := [initialBuiltins ++ [("x", Value.null)]], output := [] }
      (by decide) rfl⟩

/-- C6 (corrected, counterexample): the claim says the for-loop body is
extracted up to the *matching* end-for with nesting tracked by a depth
counter.  In fact `process_for` stops at the *first* end-for line: for
the outer loop of `nestedForProg`, the extracted body cuts off at the
inner loop terminator, excluding the line after it. -/
theorem for_nesting_counterexample :
    (scanFor [.forS "j" innerForE, .printS "in", .endFor,
        .printS "outer-tail"]).1 =
      [.forS "j" innerForE, .printS "in"] :=
  rfl

/-- C6 (amended): the for-loop body is extracted up to the *first*
end-for line — the scan is exactly `takeWhile`, with no nesting counter,
so an inner for-loop terminator ends the outer body; for each element
the loop pushes a fresh scope, declares the iteration variable, assigns
the element, executes the body and pops, as the `nestedForProg` and
`continueForProg` runs show (the latter also popping on continue and
ending balanced). -/
theorem for_block_first_end_for :
    (∀ rest : List Stmt,
      scanFor rest =
        (rest.takeWhile (fun s => !isEndForB s),
          (rest.takeWhile (fun s => !isEndForB s)).length)) ∧
    (interpretProgram 80 nestedForProg initSt).st.output =
      [("in", false), ("in", false), ("outer-tail", false),
       ("오류: 알 수 없는 명령어 - 끝 반복문 북딱", true)] ∧
    (interpretProgram 80 continueForProg initSt).st.output =
      [("1", false), ("2", false), ("3", false)] ∧
    (interpretProgram 80 continueForProg initSt).st.scopes =
      [initialBuiltins] :=
  ⟨scanFor_eq, rfl, rfl, rfl⟩

/-- C7 (corrected, counterexample): the claim says *every* expression
containing attribute access is rejected.  Short-circuit evaluation can
skip the offending operand: `0 and a.b` evaluates to `False` without
an error. -/
theorem shortcircuit_skips_attribute_counterexample :
    safeEval (some (.boolOp true
        [.constant (.intV 0), .attribute (.nameE "a") "b"])) [] =
      .ok (.boolV false) :=
  rfl

/-- C7 (amended): a parse error, and any attribute-access or call node
that evaluation actually reaches, raise the unsafe-expression error;
an attribute or call node skipped by short-circuiting does not. -/
theorem unsafe_rejection :
    (∀ env, safeEval none env = .error "안전하지 않은 표현식: 구문 오류") ∧
    (∀ (o : PyAst) (a : String) env,
      safeEval (some (.attribute o a)) env =
        .error ("안전하지 않은 표현식: 지원되지 않는 표현식 구성요소")) ∧
    (∀ (f : PyAst) (as : List PyAst) env,
      safeEval (some (.callE f as)) env =
        .error ("안전하지 않은 표현식: 지원되지 않는 표현식 구성요소")) :=
  ⟨fun _ => rfl, fun _ _ _ => rfl, fun _ _ _ => rfl⟩

/-- C8 (confirmed): calling a function with a wrong argument count
reports an arity error and yields null without raising; the scope stack
and every binding are exactly as before the call (only the diagnostic
trace grows by the error line). -/
theorem arity_mismatch_yields_null (n : Nat) (ps : List String)
    (blk : List Stmt) (clos : List Scope) (args : List Value) (st : St)
    (h : args.length ≠ ps.length) :
    ∃ msg, callFunction (n + 1) ps blk clos args st =
      .val .null { st with output := st.output ++ [(msg, true)] } := by
  refine ⟨"오류: 함수 호출 인자 개수 불일치. 기대: " ++ toString ps.length ++
    ", 전달: " ++ toString args.length, ?_⟩
  simp only [callFunction]
  rw [if_pos h]
  rfl

/-- Witness for C8: a zero-argument call of a one-parameter function. -/
theorem arity_mismatch_yields_null_witness :
    ([] : List Value).length ≠ ["a"].length ∧
    ∃ msg, callFunction 1 ["a"] [] [] [] initSt =
      .val .null { initSt with output := initSt.output ++ [(msg, true)] } :=
  ⟨by decide, arity_mismatch_yields_null 0 ["a"] [] [] [] initSt (by decide)⟩

/-- C9 (confirmed): in `_eval_node`, a conjunction returns on the first
falsy operand and a disjunction on the first truthy operand — the
remaining operands (here arbitrary, possibly erroring) are not
evaluated — and the result is the truthiness as a boolean, not the
operand value. -/
theorem boolop_shortcircuit :
    (∀ env pre x post vx,
      (∀ p ∈ pre, ∃ v, evalNode p env = .ok v ∧ truthy v = true) →
      evalNode x env = .ok vx → truthy vx = false →
      evalNode (.boolOp true (pre ++ x :: post)) env = .ok (.boolV false)) ∧
    (∀ env pre x post vx,
      (∀ p ∈ pre, ∃ v, evalNode p env = .ok v ∧ truthy v = false) →
      evalNode x env = .ok vx → truthy vx = true →
      evalNode (.boolOp false (pre ++ x :: post)) env = .ok (.boolV true)) := by
  constructor
  · intro env pre x post vx hpre hx hfx
    have h := evalAll_append_falsy env pre post x vx hpre hx hfx
    simp [evalNode, h, Bind.bind, Except.bind, Pure.pure, Except.pure]
  · intro env pre x post vx hpre hx htx
    have h := evalAny_append_truthy env pre post x vx hpre hx htx
    simp [evalNode, h, Bind.bind, Except.bind, Pure.pure, Except.pure]

/-- Witness for C9: `2 and 0 and a.b` is `False`, `0 or 3 or a.b` is
`True`; the attribute access is never evaluated. -/
theorem boolop_shortcircuit_witness :
    evalNode (.boolOp true ([.constant (.intV 2)] ++ .constant (.intV 0) ::
        [.attribute (.nameE "a") "b"])) [] = .ok (.boolV false) ∧
    evalNode (.boolOp false ([.constant (.intV 0)] ++ .constant (.intV 3) ::
        [.attribute (.nameE "a") "b"])) [] = .ok (.boolV true) := by
  constructor
  · exact boolop_shortcircuit.1 [] [.constant (.intV 2)] (.constant (.intV 0))
      [.attribute (.nameE "a") "b"] (.intV 0)
      (by
        intro p hp
        simp only [List.mem_singleton] at hp
        subst hp
        exact ⟨.intV 2, rfl, rfl⟩)
      rfl rfl
  · exact boolop_shortcircuit.2 [] [.constant (.intV 0)] (.constant (.intV 3))
      [.attribute (.nameE "a") "b"] (.intV 3)
      (by
        intro p hp
        simp only [List.mem_singleton] at hp
        subst hp
        exact ⟨.intV 0, rfl, rfl⟩)
      rfl rfl

/-- C10 (confirmed): if the right-hand side of an assignment evaluates
to null — which is what the evaluator returns both on failure and for a
literal `None` — the assignment handler performs no write at all: the
resulting state is exactly the post-evaluation state (diagnostics only),
and the scope stack, hence every binding, is unchanged. -/
theorem assign_null_no_write (v : String) (e : Option PyAst) (st st' : St)
    (h : evaluateExpression st e = (Value.null, st')) :
    handleAssign v e st = st' ∧ st'.scopes = st.scopes := by
  constructor
  · unfold handleAssign
    rw [h]
  · have := evaluateExpression_scopes st e
    rw [h] at this
    exact this

/-- Witness for C10: assigning from an unbound name reports the
evaluation error and writes nothing. -/
theorem assign_null_no_write_witness :
    handleAssign "x" (some (.nameE "zzz")) initSt =
      eungdi initSt
        ("오류: 수식 평가 중 문제 발생 - 안전하지 않은 표현식: 변수 \"zzz\"가 선언되지 않음")
        true ∧
    (eungdi initSt
        ("오류: 수식 평가 중 문제 발생 - 안전하지 않은 표현식: 변수 \"zzz\"가 선언되지 않음")
        true).scopes = initSt.scopes :=
  assign_null_no_write "x" (some (.nameE "zzz")) initSt _ rfl

end Noh